import Mathlib

/-!
Verification of the polling and change-detection engine of
hyperliquid-trader-watcher, embedded from src/app/monitoring/monitor.py.

Numeric fields carried by provider payloads are modelled as `Option ℚ`:
`some q` stands for a field that is present and parses to the value `q`,
`none` for a field that is absent or unparsable (Python's `float(x)`
raising).  Integer timestamps are `ℤ`.  Python's truthiness-based `x or y`
is modelled by the `pyOr*` helpers (`None`, `0`, `0.0`, `""` and empty
dicts are falsy).
-/

/-- Byte-wise (code-point) comparison of characters, as Python compares
strings.  `charsLe a b` decides whether `a` precedes or equals `b` in
lexicographic order. -/
def charsLe : List Char → List Char → Bool
  | [], _ => true
  | _ :: _, [] => false
  | a :: as, b :: bs =>
    Nat.blt a.toNat b.toNat || (a.toNat == b.toNat && charsLe as bs)

/-- Lexicographic order on strings by code point, mirroring Python's
string comparison used by `sorted(...)`. -/
def strLe (a b : String) : Bool :=
  charsLe a.data b.data

/-- Decides whether the first character list is an initial segment of the
second. -/
def charsHasPre : List Char → List Char → Bool
  | [], _ => true
  | _ :: _, [] => false
  | a :: as, b :: bs => a == b && charsHasPre as bs

/-- Decides whether the first character list occurs contiguously inside the
second, mirroring Python's `needle in haystack` on strings. -/
def charsHasSub : List Char → List Char → Bool
  | needle, [] => needle.isEmpty
  | needle, c :: rest => charsHasPre needle (c :: rest) || charsHasSub needle rest

/-- Python's `needle in hay` substring test. -/
def strContains (hay needle : String) : Bool :=
  charsHasSub needle.data hay.data

/-- Python's `str.lower()`, mapping each character to lower case. -/
def strLower (s : String) : String :=
  ⟨s.data.map Char.toLower⟩

/-- Python's `a or b` on optional strings: `None` and `""` are falsy. -/
def pyOrStr : Option String → Option String → Option String
  | none, b => b
  | some s, b => if s = "" then b else some s

/-- Python's `a or b` on optional integers: `None` and `0` are falsy. -/
def pyOrInt : Option ℤ → Option ℤ → Option ℤ
  | none, b => b
  | some n, b => if n = 0 then b else some n

/-- Python's `a or b` on optional floats: `None` and `0.0` are falsy. -/
def pyOrQ : Option ℚ → Option ℚ → Option ℚ
  | none, b => b
  | some q, b => if q = 0 then b else some q

/-- Python's `a or b` where `b` is a concrete integer fallback, as in
`state.last_fills_ts_ms or (now_ms - 5 * 60 * 1000)`. -/
def pyOrIntD : Option ℤ → ℤ → ℤ
  | none, b => b
  | some n, b => if n = 0 then b else n

/-- monitor.py `_safe_float`: parse to float, defaulting to `0.0` when the
value is absent or unparsable. -/
def safe_float : Option ℚ → ℚ
  | none => 0
  | some q => q

/-- The `{"value": ...}` object stored under a position's `leverage` key.
`value` is the result of Python's `int(...)` on the stored value, `none`
when that conversion raises. -/
structure RawLeverage where
  value : Option ℤ
deriving DecidableEq

/-- A single position record from the provider payload, restricted to the
fields the monitor reads: `szi` (signed size), `leverage`, and
`positionValue`. -/
structure RawPosition where
  szi : Option ℚ
  leverage : Option RawLeverage
  positionValue : Option ℚ
deriving DecidableEq

/-- The empty dict `{}` used as the fallback for a missing position. -/
def emptyRawPosition : RawPosition :=
  { szi := none, leverage := none, positionValue := none }

/-- monitor.py `_extract_leverage`: `int((position.get("leverage") or {}).get("value"))`,
`None` when the conversion raises. -/
def extract_leverage (p : RawPosition) : Option ℤ :=
  match p.leverage with
  | none => none
  | some l => l.value

/-- monitor.py `_extract_notional_usd`: `abs(float(position.get("positionValue")))`,
`None` when the conversion raises. -/
def extract_notional_usd (p : RawPosition) : Option ℚ :=
  match p.positionValue with
  | none => none
  | some v => some |v|

/-- A positions snapshot: a finite map from coin symbol to position record,
modelled as an association list. -/
abbrev Positions := List (String × RawPosition)

/-- Dict lookup `m.get(c)` on a positions snapshot. -/
def lookupPos : Positions → String → Option RawPosition
  | [], _ => none
  | (c, p) :: rest, c' => if c = c' then some p else lookupPos rest c'

/-- monitor.py's `positions.get(coin) or {}`. -/
def posAt (m : Positions) (c : String) : RawPosition :=
  (lookupPos m c).getD emptyRawPosition

/-- monitor.py's `sorted(set(old_positions.keys()) | set(new_positions.keys()))`. -/
def unionCoins (old nw : Positions) : List String :=
  List.insertionSort (fun a b => strLe a b = true)
    ((old.map Prod.fst ++ nw.map Prod.fst).dedup)

/-- The event record built for a changed position
(formatter.py `PositionChange`). -/
structure PositionChange where
  trader_address : String
  coin : String
  old_szi : ℚ
  new_szi : ℚ
  leverage : Option ℤ
  notional_usd : Option ℚ
  realized_pnl_usd : Option ℚ
deriving DecidableEq

/-- A fill record, restricted to the fields the monitor reads: `coin`
(`none` for an absent key) and `closedPnl`. -/
structure Fill where
  coin : Option String
  closedPnl : Option ℚ
deriving DecidableEq

/-- Dict lookup on the per-coin realized-PnL accumulator. -/
def lookupQ : List (String × ℚ) → String → Option ℚ
  | [], _ => none
  | (c, q) :: rest, c' => if c = c' then some q else lookupQ rest c'

/-- Dict assignment `m[c] = q` on the per-coin accumulator. -/
def setQ : List (String × ℚ) → String → ℚ → List (String × ℚ)
  | [], c, q => [(c, q)]
  | (c', q') :: rest, c, q =>
    if c' = c then (c, q) :: rest else (c', q') :: setQ rest c q

/-- One iteration of monitor.py's fills loop: skip a fill whose `coin` is
falsy or whose parsed `closedPnl` is `0`, otherwise add the PnL into the
accumulator under that coin. -/
def fillsStep (m : List (String × ℚ)) (f : Fill) : List (String × ℚ) :=
  match f.coin with
  | none => m
  | some c =>
    if c = "" then m
    else
      let pnl := safe_float f.closedPnl
      if pnl = 0 then m
      else setQ m c ((lookupQ m c).getD 0 + pnl)

/-- monitor.py's `fills_by_coin` accumulation over the fetched fills. -/
def fillsByCoin (fills : List Fill) : List (String × ℚ) :=
  fills.foldl fillsStep []

/-- The body of monitor.py's position-diff loop for one coin of the union:
`none` when the signed size is unchanged, otherwise the `PositionChange`
built from the old and new records. -/
def positionEventAt (address : String) (old nw : Positions)
    (fills_by_coin : List (String × ℚ)) (coin : String) : Option PositionChange :=
  let op := posAt old coin
  let np := posAt nw coin
  let old_szi := safe_float op.szi
  let new_szi := safe_float np.szi
  if old_szi = new_szi then none
  else some
    { trader_address := address
      coin := coin
      old_szi := old_szi
      new_szi := new_szi
      leverage := pyOrInt (extract_leverage np) (extract_leverage op)
      notional_usd := pyOrQ (extract_notional_usd np) (extract_notional_usd op)
      realized_pnl_usd := lookupQ fills_by_coin coin }

/-- monitor.py's `position_events` list: the diff loop run over the sorted
union of old and new coins. -/
def positionEvents (address : String) (old nw : Positions)
    (fills_by_coin : List (String × ℚ)) : List PositionChange :=
  (unionCoins old nw).filterMap (positionEventAt address old nw fills_by_coin)

/-- A raw ledger update, restricted to the fields the classifier reads:
the `type` and `kind` tags (string-valued or absent). -/
structure RawLedgerUpdate where
  type : Option String
  kind : Option String
deriving DecidableEq

/-- The event record built for a classified ledger update
(formatter.py `LedgerEvent`). -/
structure LedgerEvent where
  trader_address : String
  kind : String
  raw : RawLedgerUpdate
deriving DecidableEq

/-- monitor.py `TraderMonitor._classify_ledger_event`:
`t = str(u.get("type") or u.get("kind") or "").lower()`, then
case-insensitive substring dispatch to deposit / withdraw / liquidation /
ignore. -/
def classify_ledger_event (u : RawLedgerUpdate) : String :=
  let t := strLower ((pyOrStr u.type u.kind).getD "")
  if strContains t "deposit" || strContains t "bridgedeposit" || strContains t "usdcdeposit" then
    "deposit"
  else if strContains t "withdraw" || strContains t "bridgewithdraw" || strContains t "usdcwithdraw" then
    "withdraw"
  else if strContains t "liquid" then
    "liquidation"
  else
    "ignore"

/-- monitor.py's ledger loop: keep an update as a `LedgerEvent` exactly
when its classification is in `{"deposit", "withdraw", "liquidation"}`. -/
def ledgerEvents (address : String) (updates : List RawLedgerUpdate) : List LedgerEvent :=
  updates.filterMap fun u =>
    let kind := classify_ledger_event u
    if kind = "deposit" ∨ kind = "withdraw" ∨ kind = "liquidation" then
      some { trader_address := address, kind := kind, raw := u }
    else
      none

/-- The persisted `positions_json` column: `none` is SQL NULL; `bad` is a
non-null string that yields `{}` when loaded (empty or unparsable JSON);
`good s` round-trips to the snapshot `s`. -/
inductive StoredPositions where
  | good (snap : Positions)
  | bad
deriving DecidableEq

/-- The per-trader cursor row (models.py `TraderState`), restricted to the
columns the monitor reads and writes. -/
structure TraderState where
  positions_json : Option StoredPositions
  last_ledger_ts_ms : Option ℤ
  last_fills_ts_ms : Option ℤ
  last_account_value : Option String
deriving DecidableEq

/-- monitor.py's decoding of `state.positions_json` into `old_positions`:
NULL, empty, and unparsable strings all yield `{}`. -/
def decodePositions : Option StoredPositions → Positions
  | none => []
  | some .bad => []
  | some (.good s) => s

/-- client.py `HyperliquidUserSnapshot`, restricted to the fields the
monitor reads: the normalized positions map and the account value. -/
structure HyperliquidUserSnapshot where
  account_value : Option String
  positions : Positions
deriving DecidableEq

/-- The outcome of one fetch call: the value, or a raised exception. -/
inductive FetchOutcome (α : Type) where
  | ok (val : α)
  | failed
deriving DecidableEq

/-- The `except: ... = []` pattern around the fills and ledger fetches: a
failed fetch is caught and replaced by the empty list. -/
def orEmpty {α : Type} : FetchOutcome (List α) → List α
  | .failed => []
  | .ok xs => xs

/-- The outcomes of the three fetches `_poll_trader` performs against the
exchange client: `fetch_user_state`, `fetch_fills_by_time`, and
`fetch_non_funding_ledger_updates`. -/
structure FetchResults where
  user_state : FetchOutcome HyperliquidUserSnapshot
  fills : FetchOutcome (List Fill)
  ledger : FetchOutcome (List RawLedgerUpdate)
deriving DecidableEq

/-- One notification handed to the Telegram notifier, tagged by which of
the two dispatch loops produced it. -/
inductive Dispatch where
  | position (ev : PositionChange)
  | ledger (ev : LedgerEvent)
deriving DecidableEq

/-- The observable outcome of one `_poll_trader` call for one account:
either the call raised (no commit, nothing dispatched), or it committed a
new cursor and dispatched a list of notifications in order. -/
inductive PollResult where
  | aborted
  | ok (newState : TraderState) (dispatched : List Dispatch)
deriving DecidableEq

/-- monitor.py line 95: the bootstrap flag, computed from the cursor alone
before any fetch. -/
def isBootstrap (state : TraderState) : Bool :=
  state.positions_json.isNone && state.last_ledger_ts_ms.isNone && state.last_fills_ts_ms.isNone

/-- monitor.py `TraderMonitor._poll_trader`, as a function of the cursor,
the three fetch outcomes and the tick's clock reading `now_ms`.  A failed
`fetch_user_state` propagates (aborting the account's tick before any
cursor write); failed fills and ledger fetches are caught and replaced by
empty lists.  The cursor is then persisted and, unless the bootstrap flag
was set, position events followed by ledger events are dispatched. -/
def poll_trader (address : String) (state : TraderState) (fetched : FetchResults)
    (now_ms : ℤ) : PollResult :=
  let is_bootstrap := isBootstrap state
  match fetched.user_state with
  | .failed => .aborted
  | .ok snapshot =>
    let old_positions := decodePositions state.positions_json
    let new_positions := snapshot.positions
    let fills := orEmpty fetched.fills
    let fills_by_coin := fillsByCoin fills
    let position_events := positionEvents address old_positions new_positions fills_by_coin
    let updates := orEmpty fetched.ledger
    let ledger_events := ledgerEvents address updates
    let newState : TraderState :=
      { positions_json := some (.good new_positions)
        last_ledger_ts_ms := some now_ms
        last_fills_ts_ms := some now_ms
        last_account_value := snapshot.account_value }
    let dispatched :=
      if is_bootstrap then []
      else position_events.map Dispatch.position ++ ledger_events.map Dispatch.ledger
    .ok newState dispatched

/-- Whether the awaited `_poll_once` call of one loop iteration returned
normally or raised. -/
inductive TickOutcome where
  | ok
  | raised
deriving DecidableEq

/-- What one iteration of `run_forever`'s `while True` body does after the
tick: whether the loop keeps running, and how long it sleeps. -/
structure IterationStep where
  continues : Bool
  sleep_for : ℚ
deriving DecidableEq

/-- monitor.py `TraderMonitor.run_forever`, one iteration of the loop
body: the tick runs inside `try/except Exception`, so both outcomes fall
through to `sleep_for = max(0.1, interval - elapsed)` and the loop
continues. -/
def run_forever_step (poll_interval_seconds : ℚ) (tick : TickOutcome)
    (elapsed : ℚ) : IterationStep :=
  match tick with
  | .ok => { continues := true, sleep_for := max (1 / 10) (poll_interval_seconds - elapsed) }
  | .raised => { continues := true, sleep_for := max (1 / 10) (poll_interval_seconds - elapsed) }

/-- Ledger classification as the spec states it (§4.2): lowercase the
type/kind tag once and test the three substrings `"deposit"`,
`"withdraw"`, `"liquid"` in order.  Stated from the spec's words, for
comparison with the code's `classify_ledger_event`. -/
def classifySpec (u : RawLedgerUpdate) : String :=
  let t := strLower ((pyOrStr u.type u.kind).getD "")
  if strContains t "deposit" then "deposit"
  else if strContains t "withdraw" then "withdraw"
  else if strContains t "liquid" then "liquidation"
  else "ignore"

/-- The per-symbol realized-PnL contributions as the spec states them
(§4.1 step 5): the parsed PnL of each fetched fill for that symbol,
skipping zero or absent values.  Stated from the spec's words, for
comparison with the code's `fillsByCoin` accumulator. -/
def specPnlContribs (c : String) (fills : List Fill) : List ℚ :=
  (fills.filter fun f => decide (f.coin = some c ∧ safe_float f.closedPnl ≠ 0)).map
    fun f => safe_float f.closedPnl

/-- Unfolding of `charsLe` on two nonempty lists, in propositional form. -/
theorem charsLe_cons_iff (a b : Char) (as bs : List Char) :
    charsLe (a :: as) (b :: bs) = true ↔
      a.toNat < b.toNat ∨ (a.toNat = b.toNat ∧ charsLe as bs = true) := by
  simp [charsLe]

/-- The code-point order on character lists is total. -/
theorem charsLe_total : ∀ as bs : List Char, charsLe as bs = true ∨ charsLe bs as = true
  | [], _ => Or.inl rfl
  | _ :: _, [] => Or.inr rfl
  | a :: as, b :: bs => by
    rcases Nat.lt_trichotomy a.toNat b.toNat with h | h | h
    · exact Or.inl ((charsLe_cons_iff a b as bs).mpr (Or.inl h))
    · rcases charsLe_total as bs with ih | ih
      · exact Or.inl ((charsLe_cons_iff a b as bs).mpr (Or.inr ⟨h, ih⟩))
      · exact Or.inr ((charsLe_cons_iff b a bs as).mpr (Or.inr ⟨h.symm, ih⟩))
    · exact Or.inr ((charsLe_cons_iff b a bs as).mpr (Or.inl h))

/-- The code-point order on character lists is transitive. -/
theorem charsLe_trans : ∀ as bs cs : List Char,
    charsLe as bs = true → charsLe bs cs = true → charsLe as cs = true
  | [], _, _, _, _ => rfl
  | _ :: _, [], _, h1, _ => by simp [charsLe] at h1
  | _ :: _, _ :: _, [], _, h2 => by simp [charsLe] at h2
  | a :: as, b :: bs, c :: cs, h1, h2 => by
    rw [charsLe_cons_iff] at h1 h2 ⊢
    rcases h1 with h1 | ⟨e1, r1⟩
    · rcases h2 with h2 | ⟨e2, _⟩
      · exact Or.inl (h1.trans h2)
      · exact Or.inl (e2 ▸ h1)
    · rcases h2 with h2 | ⟨e2, r2⟩
      · exact Or.inl (e1 ▸ h2)
      · exact Or.inr ⟨e1.trans e2, charsLe_trans as bs cs r1 r2⟩

instance : IsTotal String fun a b => strLe a b = true :=
  ⟨fun a b => charsLe_total a.data b.data⟩

instance : IsTrans String fun a b => strLe a b = true :=
  ⟨fun a b c => charsLe_trans a.data b.data c.data⟩

/-- `charsHasPre n h` holds exactly when `h` extends `n`. -/
theorem charsHasPre_iff : ∀ n h : List Char, charsHasPre n h = true ↔ ∃ t, h = n ++ t
  | [], h => by simp [charsHasPre]
  | a :: n, [] => by simp [charsHasPre]
  | a :: n, b :: h => by
    simp only [charsHasPre, Bool.and_eq_true, beq_iff_eq]
    rw [charsHasPre_iff n h]
    constructor
    · rintro ⟨rfl, t, rfl⟩
      exact ⟨t, rfl⟩
    · rintro ⟨t, ht⟩
      injection ht with hb hrest
      exact ⟨hb.symm, t, hrest⟩

/-- `charsHasSub n h` holds exactly when `n` occurs contiguously in `h`. -/
theorem charsHasSub_iff : ∀ n h : List Char, charsHasSub n h = true ↔ ∃ p t, h = p ++ n ++ t
  | n, [] => by
    constructor
    · intro hn
      refine ⟨[], [], ?_⟩
      have : n = [] := by simpa [charsHasSub, List.isEmpty_iff] using hn
      simp [this]
    · rintro ⟨p, t, hpt⟩
      have hp : p = [] ∧ n = [] ∧ t = [] := by
        constructor
        · cases p with
          | nil => rfl
          | cons x xs => simp at hpt
        · constructor
          · cases p <;> cases n <;> simp_all
          · cases p <;> cases n <;> cases t <;> simp_all
      simp [charsHasSub, hp.2.1]
  | n, c :: h => by
    simp only [charsHasSub, Bool.or_eq_true]
    rw [charsHasPre_iff, charsHasSub_iff n h]
    constructor
    · rintro (⟨t, ht⟩ | ⟨p, t, rfl⟩)
      · exact ⟨[], t, by simpa using ht⟩
      · exact ⟨c :: p, t, rfl⟩
    · rintro ⟨p, t, hpt⟩
      cases p with
      | nil => exact Or.inl ⟨t, by simpa using hpt⟩
      | cons c' p' =>
        injection hpt with h1 h2
        exact Or.inr ⟨p', t, h2⟩

/-- Occurring-inside is transitive. -/
theorem charsHasSub_trans {a b c : List Char} (h1 : charsHasSub a b = true)
    (h2 : charsHasSub b c = true) : charsHasSub a c = true := by
  rw [charsHasSub_iff] at h1 h2 ⊢
  obtain ⟨p1, t1, rfl⟩ := h1
  obtain ⟨p2, t2, rfl⟩ := h2
  exact ⟨p2 ++ p1, t1 ++ t2, by simp [List.append_assoc]⟩

/-- A substring of a branch test's longer tag is found whenever the longer
tag is found. -/
theorem strContains_mono {t n m : String}
    (hs : charsHasSub n.data m.data = true) (h : strContains t m = true) :
    strContains t n = true :=
  charsHasSub_trans hs h

/-- The three-substring branch tests of the code collapse to the spec's
single-substring tests: every other tested tag already contains the
spec's tag. -/
theorem classify_ledger_event_eq_spec (u : RawLedgerUpdate) :
    classify_ledger_event u = classifySpec u := by
  simp only [classify_ledger_event, classifySpec]
  set t := strLower ((pyOrStr u.type u.kind).getD "") with ht
  have hd1 : strContains t "bridgedeposit" = true → strContains t "deposit" = true :=
    strContains_mono (by decide)
  have hd2 : strContains t "usdcdeposit" = true → strContains t "deposit" = true :=
    strContains_mono (by decide)
  have hw1 : strContains t "bridgewithdraw" = true → strContains t "withdraw" = true :=
    strContains_mono (by decide)
  have hw2 : strContains t "usdcwithdraw" = true → strContains t "withdraw" = true :=
    strContains_mono (by decide)
  have hdep : (strContains t "deposit" || strContains t "bridgedeposit"
      || strContains t "usdcdeposit") = strContains t "deposit" := by
    cases h : strContains t "deposit"
    · cases h1 : strContains t "bridgedeposit"
      · cases h2 : strContains t "usdcdeposit"
        · rfl
        · exact absurd (hd2 h2) (by simp [h])
      · exact absurd (hd1 h1) (by simp [h])
    · simp
  have hwd : (strContains t "withdraw" || strContains t "bridgewithdraw"
      || strContains t "usdcwithdraw") = strContains t "withdraw" := by
    cases h : strContains t "withdraw"
    · cases h1 : strContains t "bridgewithdraw"
      · cases h2 : strContains t "usdcwithdraw"
        · rfl
        · exact absurd (hw2 h2) (by simp [h])
      · exact absurd (hw1 h1) (by simp [h])
    · simp
  rw [hdep, hwd]

/-- The classifier returns one of exactly four strings. -/
theorem classify_ledger_event_cases (u : RawLedgerUpdate) :
    classify_ledger_event u = "deposit" ∨ classify_ledger_event u = "withdraw"
      ∨ classify_ledger_event u = "liquidation" ∨ classify_ledger_event u = "ignore" := by
  simp only [classify_ledger_event]
  split
  · exact Or.inl rfl
  · split
    · exact Or.inr (Or.inl rfl)
    · split
      · exact Or.inr (Or.inr (Or.inl rfl))
      · exact Or.inr (Or.inr (Or.inr rfl))

/-- The ledger loop keeps an update exactly when its classification is not
`"ignore"`. -/
theorem ledgerEvents_eq_filterMap (address : String) (updates : List RawLedgerUpdate) :
    ledgerEvents address updates
      = updates.filterMap fun u =>
          if classify_ledger_event u = "ignore" then none
          else some { trader_address := address, kind := classify_ledger_event u, raw := u } := by
  unfold ledgerEvents
  congr 1
  funext u
  rcases classify_ledger_event_cases u with h | h | h | h <;> simp [h]

/-- C4: classification lowercases the type/kind tag and maps it by
case-insensitive substring match to deposit / withdraw / liquidation,
defaulting to ignore; only non-ignore updates become LedgerEvents; in
particular `"UsdcDeposit"` classifies as deposit and `"internalTransfer"`
classifies as ignore and yields no event. -/
theorem ledger_classification_correct (address : String) (u : RawLedgerUpdate)
    (updates : List RawLedgerUpdate) :
    classify_ledger_event u = classifySpec u
    ∧ (ledgerEvents address updates
        = updates.filterMap fun v =>
            if classify_ledger_event v = "ignore" then none
            else some { trader_address := address, kind := classify_ledger_event v, raw := v })
    ∧ classify_ledger_event { type := some "UsdcDeposit", kind := none } = "deposit"
    ∧ classify_ledger_event { type := some "internalTransfer", kind := none } = "ignore"
    ∧ ledgerEvents address [{ type := some "internalTransfer", kind := none }] = [] :=
  ⟨classify_ledger_event_eq_spec u, ledgerEvents_eq_filterMap address updates,
    by decide, by decide,
    by simp [ledgerEvents,
      show classify_ledger_event { type := some "internalTransfer", kind := none } = "ignore"
        from by decide]⟩

/-- C10: a raw ledger update whose type and kind tags are both absent,
null or empty classifies as ignore without raising, and produces no
LedgerEvent. -/
theorem missing_tag_classifies_ignore (address : String) (u : RawLedgerUpdate)
    (ht : u.type = none ∨ u.type = some "") (hk : u.kind = none ∨ u.kind = some "") :
    classify_ledger_event u = "ignore" ∧ ledgerEvents address [u] = [] := by
  have htag : (pyOrStr u.type u.kind).getD "" = "" := by
    rcases ht with h | h <;> rcases hk with h' | h' <;> simp [pyOrStr, h, h']
  have hcl : classify_ledger_event u = "ignore" := by
    simp only [classify_ledger_event, htag]
    decide
  exact ⟨hcl, by simp [ledgerEvents, hcl]⟩

/-- Witness for C10 at an update with absent type and empty kind. -/
theorem missing_tag_classifies_ignore_witness :
    classify_ledger_event { type := none, kind := some "" } = "ignore"
      ∧ ledgerEvents "0xabc" [{ type := none, kind := some "" }] = [] :=
  missing_tag_classifies_ignore "0xabc" { type := none, kind := some "" }
    (Or.inl rfl) (Or.inr rfl)

/-- C8: one iteration of run_forever's loop body catches a raised tick
inside the loop (so it always continues) and sleeps exactly
`max(0.1, interval - elapsed)` seconds: never negative, never below the
100ms floor, and exactly the floor once the tick ran at least as long as
the interval. -/
theorem run_forever_step_paces_loop (interval elapsed : ℚ) (tick : TickOutcome) :
    (run_forever_step interval tick elapsed).continues = true
    ∧ (run_forever_step interval tick elapsed).sleep_for = max (1 / 10) (interval - elapsed)
    ∧ (1 / 10 : ℚ) ≤ (run_forever_step interval tick elapsed).sleep_for
    ∧ (0 : ℚ) < (run_forever_step interval tick elapsed).sleep_for
    ∧ (interval ≤ elapsed → (run_forever_step interval tick elapsed).sleep_for = 1 / 10) := by
  have hs : (run_forever_step interval tick elapsed).sleep_for
      = max (1 / 10) (interval - elapsed) := by
    cases tick <;> rfl
  have hc : (run_forever_step interval tick elapsed).continues = true := by
    cases tick <;> rfl
  refine ⟨hc, hs, ?_, ?_, ?_⟩
  · rw [hs]
    exact le_max_left _ _
  · rw [hs]
    exact lt_of_lt_of_le (by norm_num) (le_max_left _ _)
  · intro h
    rw [hs, max_eq_left (by linarith)]

/-- Witness for C8: a failed 7-second tick against a 5-second interval
still continues and sleeps exactly the 100ms floor. -/
theorem run_forever_step_paces_loop_witness :
    (run_forever_step 5 .raised 7).continues = true
      ∧ (run_forever_step 5 .raised 7).sleep_for = 1 / 10 :=
  ⟨(run_forever_step_paces_loop 5 7 .raised).1,
    (run_forever_step_paces_loop 5 7 .raised).2.2.2.2 (by norm_num)⟩

/-- C1 (amended): a failed state-snapshot fetch aborts the account's tick
with no cursor write and no dispatch, while failed fills or ledger
fetches are caught and behave exactly like empty fetch results, with
processing and the cursor write continuing. -/
theorem poll_trader_fetch_failure_semantics (address : String) (state : TraderState)
    (fetched : FetchResults) (now_ms : ℤ) (snapshot : HyperliquidUserSnapshot)
    (fillsR : FetchOutcome (List Fill)) (ledgerR : FetchOutcome (List RawLedgerUpdate)) :
    (fetched.user_state = .failed → poll_trader address state fetched now_ms = .aborted)
    ∧ poll_trader address state ⟨.ok snapshot, .failed, ledgerR⟩ now_ms
        = poll_trader address state ⟨.ok snapshot, .ok [], ledgerR⟩ now_ms
    ∧ poll_trader address state ⟨.ok snapshot, fillsR, .failed⟩ now_ms
        = poll_trader address state ⟨.ok snapshot, fillsR, .ok []⟩ now_ms := by
  refine ⟨fun h => ?_, rfl, rfl⟩
  simp [poll_trader, h]

/-- Witness for C1 (amended): a failed snapshot fetch aborts the tick. -/
theorem poll_trader_fetch_failure_semantics_witness :
    poll_trader "0xa"
        { positions_json := none, last_ledger_ts_ms := none,
          last_fills_ts_ms := none, last_account_value := none }
        { user_state := .failed, fills := .ok [], ledger := .ok [] } 0 = .aborted :=
  (poll_trader_fetch_failure_semantics "0xa"
    { positions_json := none, last_ledger_ts_ms := none,
      last_fills_ts_ms := none, last_account_value := none }
    { user_state := .failed, fills := .ok [], ledger := .ok [] } 0
    { account_value := none, positions := [] } (.ok []) (.ok [])).1 rfl

/-- C1 counterexample: the fills fetch fails while the state snapshot
succeeds, and this account's tick is not aborted — the cursor watermarks
are rewritten from 100 to 200. -/
theorem poll_trader_fills_failure_still_persists :
    poll_trader "0xa"
        { positions_json := some (.good []), last_ledger_ts_ms := some 100,
          last_fills_ts_ms := some 100, last_account_value := none }
        { user_state := .ok { account_value := none, positions := [] },
          fills := .failed, ledger := .ok [] } 200
      = .ok { positions_json := some (.good []), last_ledger_ts_ms := some 200,
              last_fills_ts_ms := some 200, last_account_value := none } []
    ∧ some (200 : ℤ) ≠ some (100 : ℤ) :=
  ⟨rfl, by decide⟩

/-- C2: the bootstrap flag is computed from the cursor alone and is set
exactly when all three cursor fields are null; a bootstrap poll persists
the populated cursor but dispatches nothing, whatever the snapshot, fills
and ledger fetches returned, while a non-bootstrap poll dispatches every
computed position event followed by every computed ledger event. -/
theorem poll_trader_bootstrap_suppression (address : String) (state : TraderState)
    (snapshot : HyperliquidUserSnapshot) (fillsR : FetchOutcome (List Fill))
    (ledgerR : FetchOutcome (List RawLedgerUpdate)) (now_ms : ℤ) :
    (state.positions_json = none ∧ state.last_ledger_ts_ms = none
        ∧ state.last_fills_ts_ms = none →
      isBootstrap state = true
      ∧ poll_trader address state ⟨.ok snapshot, fillsR, ledgerR⟩ now_ms
          = .ok { positions_json := some (.good snapshot.positions),
                  last_ledger_ts_ms := some now_ms,
                  last_fills_ts_ms := some now_ms,
                  last_account_value := snapshot.account_value } [])
    ∧ (isBootstrap state = false →
      poll_trader address state ⟨.ok snapshot, fillsR, ledgerR⟩ now_ms
        = .ok { positions_json := some (.good snapshot.positions),
                last_ledger_ts_ms := some now_ms,
                last_fills_ts_ms := some now_ms,
                last_account_value := snapshot.account_value }
            ((positionEvents address (decodePositions state.positions_json)
                snapshot.positions (fillsByCoin (orEmpty fillsR))).map Dispatch.position
              ++ (ledgerEvents address (orEmpty ledgerR)).map Dispatch.ledger)) := by
  constructor
  · rintro ⟨h1, h2, h3⟩
    have hb : isBootstrap state = true := by simp [isBootstrap, h1, h2, h3]
    exact ⟨hb, by simp [poll_trader, hb]⟩
  · intro hb
    simp [poll_trader, hb]

/-- Witness for C2: a fully-null cursor, one open position and one recent
deposit yield a populated cursor and zero dispatched events. -/
theorem poll_trader_bootstrap_suppression_witness :
    isBootstrap
        { positions_json := none, last_ledger_ts_ms := none,
          last_fills_ts_ms := none, last_account_value := none } = true
    ∧ poll_trader "0xb"
        { positions_json := none, last_ledger_ts_ms := none,
          last_fills_ts_ms := none, last_account_value := none }
        { user_state := .ok
            { account_value := some "11",
              positions := [("BTC", { szi := some 2, leverage := none, positionValue := none })] },
          fills := .ok [], ledger := .ok [{ type := some "UsdcDeposit", kind := none }] } 7
      = .ok { positions_json := some (.good
                [("BTC", { szi := some 2, leverage := none, positionValue := none })]),
              last_ledger_ts_ms := some 7, last_fills_ts_ms := some 7,
              last_account_value := some "11" } [] :=
  (poll_trader_bootstrap_suppression "0xb"
    { positions_json := none, last_ledger_ts_ms := none,
      last_fills_ts_ms := none, last_account_value := none }
    { account_value := some "11",
      positions := [("BTC", { szi := some 2, leverage := none, positionValue := none })] }
    (.ok []) (.ok [{ type := some "UsdcDeposit", kind := none }]) 7).1 ⟨rfl, rfl, rfl⟩

/-- A successful poll always writes the tick's clock reading into both
persisted watermarks. -/
theorem poll_trader_ok_watermarks (address : String) (state : TraderState)
    (fetched : FetchResults) (now_ms : ℤ) (st : TraderState) (d : List Dispatch)
    (h : poll_trader address state fetched now_ms = .ok st d) :
    st.last_ledger_ts_ms = some now_ms ∧ st.last_fills_ts_ms = some now_ms := by
  cases hu : fetched.user_state with
  | failed => simp [poll_trader, hu] at h
  | ok snap =>
    simp only [poll_trader, hu] at h
    injection h with hst hd
    subst hst
    exact ⟨rfl, rfl⟩

/-- C7: across two successful consecutive polls of the same account with a
non-decreasing clock, both persisted watermarks never decrease. -/
theorem poll_trader_watermarks_monotone (address : String)
    (state st1 st2 : TraderState) (f1 f2 : FetchResults) (now1 now2 : ℤ)
    (d1 d2 : List Dispatch) (hc : now1 ≤ now2)
    (h1 : poll_trader address state f1 now1 = .ok st1 d1)
    (h2 : poll_trader address st1 f2 now2 = .ok st2 d2) :
    (∃ w1 w2, st1.last_ledger_ts_ms = some w1 ∧ st2.last_ledger_ts_ms = some w2 ∧ w1 ≤ w2)
    ∧ (∃ w1 w2, st1.last_fills_ts_ms = some w1 ∧ st2.last_fills_ts_ms = some w2 ∧ w1 ≤ w2) := by
  obtain ⟨hl1, hf1⟩ := poll_trader_ok_watermarks address state f1 now1 st1 d1 h1
  obtain ⟨hl2, hf2⟩ := poll_trader_ok_watermarks address st1 f2 now2 st2 d2 h2
  exact ⟨⟨now1, now2, hl1, hl2, hc⟩, ⟨now1, now2, hf1, hf2, hc⟩⟩

/-- Witness for C7: two successful polls at clocks 1 then 2. -/
theorem poll_trader_watermarks_monotone_witness :
    (∃ w1 w2, (TraderState.mk (some (.good [])) (some 1) (some 1) none).last_ledger_ts_ms = some w1
      ∧ (TraderState.mk (some (.good [])) (some 2) (some 2) none).last_ledger_ts_ms = some w2
      ∧ w1 ≤ w2)
    ∧ (∃ w1 w2, (TraderState.mk (some (.good [])) (some 1) (some 1) none).last_fills_ts_ms = some w1
      ∧ (TraderState.mk (some (.good [])) (some 2) (some 2) none).last_fills_ts_ms = some w2
      ∧ w1 ≤ w2) :=
  poll_trader_watermarks_monotone "0xa"
    (TraderState.mk none none none none)
    (TraderState.mk (some (.good [])) (some 1) (some 1) none)
    (TraderState.mk (some (.good [])) (some 2) (some 2) none)
    { user_state := .ok { account_value := none, positions := [] }, fills := .ok [], ledger := .ok [] }
    { user_state := .ok { account_value := none, positions := [] }, fills := .ok [], ledger := .ok [] }
    1 2 [] [] (by decide) rfl rfl

/-- Mapping each produced event to its coin turns the diff loop over any
coin list into a filter keeping exactly the coins whose signed size
changed. -/
theorem map_coin_filterMap_positionEventAt (address : String) (old nw : Positions)
    (fbc : List (String × ℚ)) (l : List String) :
    ((l.filterMap (positionEventAt address old nw fbc)).map fun e => e.coin)
      = l.filter fun c =>
          decide (¬ safe_float (posAt old c).szi = safe_float (posAt nw c).szi) := by
  induction l with
  | nil => rfl
  | cons c l ih =>
    by_cases h : safe_float (posAt old c).szi = safe_float (posAt nw c).szi
    · simp [positionEventAt, List.filterMap_cons, List.filter_cons, h, ih]
    · simp [positionEventAt, List.filterMap_cons, List.filter_cons, h, ih]

/-- The sorted union of coins is sorted. -/
theorem unionCoins_sorted (old nw : Positions) :
    List.Sorted (fun a b => strLe a b = true) (unionCoins old nw) :=
  List.sorted_insertionSort _ _

/-- The sorted union of coins has no duplicates. -/
theorem unionCoins_nodup (old nw : Positions) : (unionCoins old nw).Nodup :=
  (List.perm_insertionSort _ _).nodup_iff.mpr (List.nodup_dedup _)

/-- C3: the diff emits exactly one event per symbol of the union of old
and new snapshots whose signed size differs (a symbol present on one side
only compares against the other side's default 0), none for symbols with
numerically equal size, in lexicographic symbol order; the spec's BTC/ETH
example yields exactly the one ETH event. -/
theorem position_diff_correct (address : String) (old nw : Positions)
    (fbc : List (String × ℚ)) :
    ((positionEvents address old nw fbc).map fun e => e.coin)
        = ((unionCoins old nw).filter fun c =>
            decide (¬ safe_float (posAt old c).szi = safe_float (posAt nw c).szi))
    ∧ List.Sorted (fun a b => strLe a b = true)
        ((positionEvents address old nw fbc).map fun e => e.coin)
    ∧ ((positionEvents address old nw fbc).map fun e => e.coin).Nodup
    ∧ positionEvents "t"
        [("BTC", { szi := some 1.5, leverage := none, positionValue := none })]
        [("BTC", { szi := some 1.5, leverage := none, positionValue := none }),
         ("ETH", { szi := some (-2), leverage := none, positionValue := none })] []
        = [{ trader_address := "t", coin := "ETH", old_szi := 0, new_szi := -2,
             leverage := none, notional_usd := none, realized_pnl_usd := none }] := by
  have hmap := map_coin_filterMap_positionEventAt address old nw fbc (unionCoins old nw)
  refine ⟨hmap, ?_, ?_, ?_⟩
  · show List.Sorted _ (((unionCoins old nw).filterMap
      (positionEventAt address old nw fbc)).map fun e => e.coin)
    rw [hmap]
    exact (unionCoins_sorted old nw).filter _
  · show (((unionCoins old nw).filterMap
      (positionEventAt address old nw fbc)).map fun e => e.coin).Nodup
    rw [hmap]
    exact (unionCoins_nodup old nw).filter _
  · have hu : unionCoins
        [("BTC", { szi := some 1.5, leverage := none, positionValue := none })]
        [("BTC", { szi := some 1.5, leverage := none, positionValue := none }),
         ("ETH", { szi := some (-2), leverage := none, positionValue := none })]
        = ["BTC", "ETH"] := by decide
    simp only [positionEvents, hu]
    norm_num +decide [positionEventAt, posAt, lookupPos, emptyRawPosition, safe_float,
      pyOrInt, pyOrQ, extract_leverage, extract_notional_usd, lookupQ]

/-- C6 counterexample: the new snapshot's leverage is present and equal to
0 and its notional value parses to 0, yet the emitted event carries the
old snapshot's leverage 5 and notional 100 — Python's `or` treats the new
snapshot's zero values as falsy and falls back to the old snapshot. -/
theorem new_zero_values_fall_back_to_old :
    positionEvents "t"
        [("BTC", { szi := some 1, leverage := some { value := some 5 },
                   positionValue := some 100 })]
        [("BTC", { szi := some 2, leverage := some { value := some 0 },
                   positionValue := some 0 })] []
      = [{ trader_address := "t", coin := "BTC", old_szi := 1, new_szi := 2,
           leverage := some 5, notional_usd := some 100, realized_pnl_usd := none }] := by
  have hu : unionCoins
      [("BTC", { szi := some 1, leverage := some { value := some 5 },
                 positionValue := some 100 })]
      [("BTC", { szi := some 2, leverage := some { value := some 0 },
                 positionValue := some 0 })]
      = ["BTC"] := by decide
  have h100 : |(100 : ℚ)| = 100 := abs_of_nonneg (by norm_num)
  simp only [positionEvents, hu]
  norm_num +decide [positionEventAt, posAt, lookupPos, emptyRawPosition, safe_float,
    pyOrInt, pyOrQ, extract_leverage, extract_notional_usd, lookupQ, h100]

/-- C6 (amended): an emitted event's leverage is the new snapshot's value
when that value is present and nonzero, falling back to the old
snapshot's value when the new one is absent or zero; the notional value
follows the same truthiness-based preference. -/
theorem position_event_field_preference (address : String) (old nw : Positions)
    (fbc : List (String × ℚ)) (e : PositionChange)
    (he : e ∈ positionEvents address old nw fbc) :
    e.leverage
        = (match extract_leverage (posAt nw e.coin) with
           | some n => if n = 0 then extract_leverage (posAt old e.coin) else some n
           | none => extract_leverage (posAt old e.coin))
    ∧ e.notional_usd
        = (match extract_notional_usd (posAt nw e.coin) with
           | some v => if v = 0 then extract_notional_usd (posAt old e.coin) else some v
           | none => extract_notional_usd (posAt old e.coin)) := by
  obtain ⟨c, hcmem, hev⟩ := List.mem_filterMap.mp he
  by_cases h : safe_float (posAt old c).szi = safe_float (posAt nw c).szi
  · simp [positionEventAt, h] at hev
  · simp only [positionEventAt] at hev
    rw [if_neg h] at hev
    injection hev with hev2
    subst hev2
    refine ⟨?_, ?_⟩
    · cases hA : extract_leverage (posAt nw c) with
      | none => simp [pyOrInt, hA]
      | some n => simp [pyOrInt, hA]
    · cases hA : extract_notional_usd (posAt nw c) with
      | none => simp [pyOrQ, hA]
      | some v => simp [pyOrQ, hA]

/-- Witness for C6 (amended) at a singleton diff whose new snapshot
carries leverage 3 and notional 50. -/
theorem position_event_field_preference_witness :
    ({ trader_address := "t", coin := "BTC", old_szi := 0, new_szi := 1,
       leverage := some 3, notional_usd := some 50,
       realized_pnl_usd := none } : PositionChange).leverage
        = (match extract_leverage
              (posAt [("BTC", { szi := some 1, leverage := some { value := some 3 },
                                positionValue := some 50 })] "BTC") with
           | some n => if n = 0 then extract_leverage (posAt ([] : Positions) "BTC") else some n
           | none => extract_leverage (posAt ([] : Positions) "BTC"))
    ∧ ({ trader_address := "t", coin := "BTC", old_szi := 0, new_szi := 1,
         leverage := some 3, notional_usd := some 50,
         realized_pnl_usd := none } : PositionChange).notional_usd
        = (match extract_notional_usd
              (posAt [("BTC", { szi := some 1, leverage := some { value := some 3 },
                                positionValue := some 50 })] "BTC") with
           | some v => if v = 0 then extract_notional_usd (posAt ([] : Positions) "BTC") else some v
           | none => extract_notional_usd (posAt ([] : Positions) "BTC")) :=
  position_event_field_preference "t" []
    [("BTC", { szi := some 1, leverage := some { value := some 3 },
               positionValue := some 50 })] []
    { trader_address := "t", coin := "BTC", old_szi := 0, new_szi := 1,
      leverage := some 3, notional_usd := some 50, realized_pnl_usd := none }
    (by decide)

/-- Updating one key makes lookups of that key return the new value. -/
theorem lookupQ_setQ_same : ∀ (m : List (String × ℚ)) (c : String) (q : ℚ),
    lookupQ (setQ m c q) c = some q
  | [], c, q => by simp [setQ, lookupQ]
  | (a, b) :: rest, c, q => by
    by_cases h : a = c
    · simp [setQ, lookupQ, h]
    · simp [setQ, lookupQ, h, lookupQ_setQ_same rest c q]

/-- Updating one key leaves lookups of other keys unchanged. -/
theorem lookupQ_setQ_other : ∀ (m : List (String × ℚ)) (c c' : String) (q : ℚ),
    ¬ c = c' → lookupQ (setQ m c q) c' = lookupQ m c'
  | [], c, c', q, h => by simp [setQ, lookupQ, h]
  | (a, b) :: rest, c, c', q, h => by
    by_cases h2 : a = c
    · subst h2
      simp [setQ, lookupQ, h]
    · simp [setQ, lookupQ, h2, lookupQ_setQ_other rest c c' q h]

/-- Folding the fills loop from any starting accumulator: the final value
under a nonempty key combines the starting value with that key's list of
contributions. -/
theorem lookupQ_foldl_fillsStep (c : String) (hc : ¬ c = "") :
    ∀ (fills : List Fill) (m : List (String × ℚ)),
      lookupQ (fills.foldl fillsStep m) c
        = (match lookupQ m c with
           | some q => some (q + (specPnlContribs c fills).sum)
           | none =>
             if specPnlContribs c fills = [] then none
             else some (specPnlContribs c fills).sum)
  | [], m => by
    cases hm : lookupQ m c <;> simp [specPnlContribs, hm]
  | f :: fills, m => by
    have ih := lookupQ_foldl_fillsStep c hc fills
    rcases hcoin : f.coin with _ | s
    · have hstep : fillsStep m f = m := by simp [fillsStep, hcoin]
      have hcon : specPnlContribs c (f :: fills) = specPnlContribs c fills := by
        simp [specPnlContribs, List.filter_cons, hcoin]
      rw [List.foldl_cons, hstep, hcon]
      exact ih m
    · by_cases hzero : safe_float f.closedPnl = 0
      · have hstep : fillsStep m f = m := by
          simp [fillsStep, hcoin, hzero]
        have hcon : specPnlContribs c (f :: fills) = specPnlContribs c fills := by
          simp [specPnlContribs, List.filter_cons, hcoin, hzero]
        rw [List.foldl_cons, hstep, hcon]
        exact ih m
      · by_cases hs : s = ""
        · have hsc : ¬ s = c := fun h => hc (h ▸ hs)
          have hstep : fillsStep m f = m := by simp [fillsStep, hcoin, hs]
          have hcon : specPnlContribs c (f :: fills) = specPnlContribs c fills := by
            simp [specPnlContribs, List.filter_cons, hcoin, hsc]
          rw [List.foldl_cons, hstep, hcon]
          exact ih m
        · by_cases heq : s = c
          · subst heq
            have hstep : fillsStep m f
                = setQ m s ((lookupQ m s).getD 0 + safe_float f.closedPnl) := by
              simp [fillsStep, hcoin, hs, hzero]
            have hcon : specPnlContribs s (f :: fills)
                = safe_float f.closedPnl :: specPnlContribs s fills := by
              simp [specPnlContribs, List.filter_cons, hcoin, hzero]
            rw [List.foldl_cons, hstep, ih, lookupQ_setQ_same, hcon]
            cases hm : lookupQ m s with
            | none => simp [hm, List.sum_cons]
            | some q => simp [hm, List.sum_cons, add_assoc]
          · have hstep : fillsStep m f
                = setQ m s ((lookupQ m s).getD 0 + safe_float f.closedPnl) := by
              simp [fillsStep, hcoin, hs, hzero]
            have hcon : specPnlContribs c (f :: fills) = specPnlContribs c fills := by
              simp [specPnlContribs, List.filter_cons, hcoin, heq]
            rw [List.foldl_cons, hstep, ih, lookupQ_setQ_other m s c _ heq, hcon]

/-- C5: the per-coin realized-PnL aggregate equals the sum of the parsed
closedPnl over exactly the fills for that coin with nonzero parsed PnL; a
coin with no contributing fill has no entry, so its event carries null;
on the spec's example the BTC event carries 7 and the ETH event 5. -/
theorem pnl_aggregation_correct (fills : List Fill) (c : String) (hc : ¬ c = "") :
    lookupQ (fillsByCoin fills) c
        = (if specPnlContribs c fills = [] then none
           else some (specPnlContribs c fills).sum)
    ∧ (positionEvents "t"
        [("BTC", { szi := some 1, leverage := none, positionValue := none }),
         ("ETH", { szi := some 1, leverage := none, positionValue := none })]
        [("BTC", { szi := some 2, leverage := none, positionValue := none }),
         ("ETH", { szi := some 3, leverage := none, positionValue := none })]
        (fillsByCoin
          [{ coin := some "BTC", closedPnl := some 10 },
           { coin := some "BTC", closedPnl := some (-3) },
           { coin := some "ETH", closedPnl := some 5 }])).map
        (fun e => e.realized_pnl_usd) = [some 7, some 5] := by
  constructor
  · have h := lookupQ_foldl_fillsStep c hc fills []
    simpa [fillsByCoin, lookupQ] using h
  · have hfb : fillsByCoin
        [{ coin := some "BTC", closedPnl := some 10 },
         { coin := some "BTC", closedPnl := some (-3) },
         { coin := some "ETH", closedPnl := some 5 }] = [("BTC", 7), ("ETH", 5)] := by
      norm_num +decide [fillsByCoin, fillsStep, setQ, lookupQ, safe_float]
    have hu : unionCoins
        [("BTC", { szi := some 1, leverage := none, positionValue := none }),
         ("ETH", { szi := some 1, leverage := none, positionValue := none })]
        [("BTC", { szi := some 2, leverage := none, positionValue := none }),
         ("ETH", { szi := some 3, leverage := none, positionValue := none })]
        = ["BTC", "ETH"] := by decide
    simp only [positionEvents, hu, hfb]
    norm_num +decide [positionEventAt, posAt, lookupPos, emptyRawPosition, safe_float,
      pyOrInt, pyOrQ, extract_leverage, extract_notional_usd, lookupQ]

/-- Witness for C5 at the spec's fills example and coin BTC. -/
theorem pnl_aggregation_correct_witness :
    lookupQ (fillsByCoin
        [{ coin := some "BTC", closedPnl := some 10 },
         { coin := some "BTC", closedPnl := some (-3) },
         { coin := some "ETH", closedPnl := some 5 }]) "BTC"
      = (if specPnlContribs "BTC"
            [{ coin := some "BTC", closedPnl := some 10 },
             { coin := some "BTC", closedPnl := some (-3) },
             { coin := some "ETH", closedPnl := some 5 }] = [] then none
         else some (specPnlContribs "BTC"
            [{ coin := some "BTC", closedPnl := some 10 },
             { coin := some "BTC", closedPnl := some (-3) },
             { coin := some "ETH", closedPnl := some 5 }]).sum) :=
  (pnl_aggregation_correct
    [{ coin := some "BTC", closedPnl := some 10 },
     { coin := some "BTC", closedPnl := some (-3) },
     { coin := some "ETH", closedPnl := some 5 }] "BTC" (by decide)).1
